import Mathlib

/-!
Verification of the Factura repository core (state/event/storage kernel and
cost-calculation engine) against its natural-language specification.

The JavaScript source is shallowly embedded: JSON-like runtime values become
the inductive type `Val`, JS objects become association lists of fields in
insertion order, JS numbers become exact numbers (`Int` for stored state
values, `ℚ` for the monetary arithmetic of the cost calculator), and
operations that can throw a `TypeError` return `Option`.
-/

/-- JSON-like runtime value (as stored in the state tree and in storage).
JS objects are association lists of fields in insertion order; JS arrays are
not needed by any claim and behave, under the source's own `deepEqual`, like
objects keyed by index strings. -/
inductive Val where
  | null
  | bool (b : Bool)
  | num (n : Int)
  | str (s : String)
  | obj (fields : List (String × Val))
  deriving Repr

mutual
/-- Structural value equality, embedding the primitive-value part of JS
`===` (on objects JS `===` is reference equality, which implies structural
equality; the source only branches on `===` before falling back to a
structural comparison, so this over-approximation never changes a result). -/
def Val.beq : Val → Val → Bool
  | .null, .null => true
  | .bool a, .bool b => a == b
  | .num a, .num b => a == b
  | .str a, .str b => a == b
  | .obj fs, .obj gs => Val.beqFields fs gs
  | _, _ => false
termination_by structural a => a

/-- Field lists compared pointwise, in order. -/
def Val.beqFields : List (String × Val) → List (String × Val) → Bool
  | [], [] => true
  | (k, v) :: r, (k', v') :: r' => k == k' && Val.beq v v' && Val.beqFields r r'
  | _, _ => false
termination_by structural l => l
end

/-- JS object field assignment `o[k] = v`: replaces the value of an existing
key in place, otherwise appends the new key at the end (insertion order). -/
def assocSet {β : Type} : List (String × β) → String → β → List (String × β)
  | [], k, v => [(k, v)]
  | (k', v') :: rest, k, v =>
      if k' = k then (k', v) :: rest else (k', v') :: assocSet rest k v

theorem assocSet_lookup_self {β : Type} (l : List (String × β)) (k : String) (v : β) :
    (assocSet l k v).lookup k = some v := by
  induction l with
  | nil => simp [assocSet, List.lookup]
  | cons hd tl ih =>
      obtain ⟨k', v'⟩ := hd
      by_cases h : k' = k
      · subst h; simp [assocSet, List.lookup]
      · have hne : (k == k') = false := by simp [Ne.symm h]
        simp [assocSet, h, List.lookup, hne, ih]

mutual
/-- `utils.deepEqual` (core.js): `a === b` shortcut; `null` never equals a
different value; values of different `typeof` never equal; non-objects
compare by `===`; objects compare by key count and recursive comparison of
the values behind each of the first object's keys (`keysB.includes(key)`
followed by the `b[key]` read becomes a single lookup). -/
def deepEqual : Val → Val → Bool
  | a, b =>
      if Val.beq a b then true
      else
        match a, b with
        | .obj fs, .obj gs => (fs.length == gs.length) && deepEqualFields fs gs
        | _, _ => false
termination_by structural a => a

/-- The `for (const key of keysA)` loop of `utils.deepEqual`. -/
def deepEqualFields : List (String × Val) → List (String × Val) → Bool
  | [], _ => true
  | (k, va) :: rest, gs =>
      (match gs.lookup k with
       | some vb => deepEqual va vb
       | none => false) && deepEqualFields rest gs
termination_by structural l => l
end

mutual
/-- `utils.deepClone` (core.js) restricted to JSON-like values: recursively
rebuilds objects field by field. -/
def deepClone : Val → Val
  | .null => .null
  | .bool b => .bool b
  | .num n => .num n
  | .str s => .str s
  | .obj fs => .obj (deepCloneFields fs)
termination_by structural v => v

/-- The `for (const key in obj)` loop of `utils.deepClone`. -/
def deepCloneFields : List (String × Val) → List (String × Val)
  | [] => []
  | (k, v) :: rest => (k, deepClone v) :: deepCloneFields rest
termination_by structural l => l
end

-- kernel-evaluation sanity checks for the mutual recursions
example : deepEqual (.obj [("a", .num 1), ("b", .num 2)])
    (.obj [("b", .num 2), ("a", .num 1)]) = true := by decide
example : deepEqual (.obj [("a", .num 1)]) (.obj [("a", .num 2)]) = false := by decide
example : deepEqual .null (.num 0) = false := by decide
example : deepEqual (.str "x") (.str "x") = true := by decide

/-! ## StateStore (core.js `state`) -/

/-- The character-level worker behind `key.split('.')`. -/
def splitGo : List Char → List Char → List String
  | [], acc => [String.mk acc.reverse]
  | c :: cs, acc =>
      if c = '.' then String.mk acc.reverse :: splitGo cs [] else splitGo cs (c :: acc)

/-- `key.split('.')` from `state.get` / `state.set` / `state.remove`. -/
def splitPath (s : String) : List String := splitGo s.data []

theorem splitGo_ne_nil (cs : List Char) (acc : List Char) : splitGo cs acc ≠ [] := by
  induction cs generalizing acc with
  | nil => simp [splitGo]
  | cons c rest ih =>
      by_cases h : c = '.' <;> simp [splitGo, h, ih]

theorem splitPath_ne_nil (s : String) : splitPath s ≠ [] := splitGo_ne_nil _ _

/-- The state tree: `globalState` is always a plain JS object. -/
abbrev Obj := List (String × Val)

/-- One navigation step of `state.set`: the JS condition
`if (!(k in target) || typeof target[k] !== 'object') target[k] = {}`.
A missing or non-object child is replaced by `{}`; an object child is
entered; `typeof null` is `'object'`, so a `null` child is kept and the
following `in` test or property read throws — modelled by `none`. -/
def childFor : Option Val → Option Obj
  | some (.obj fs) => some fs
  | some .null => none
  | _ => some []

/-- Path navigation and assignment of `state.set` (core.js lines 58-76):
walk the parent segments via `childFor`, then record the old value at the
final key and assign the new one. -/
def setGo : Obj → List String → Val → Option (Obj × Option Val)
  | _, [], _ => none
  | tree, [last], v => some (assocSet tree last v, tree.lookup last)
  | tree, k :: rest, v =>
      match childFor (tree.lookup k) with
      | none => none
      | some fs => (setGo fs rest v).map (fun r => (assocSet tree k (.obj r.1), r.2))

/-- A state-change subscriber registered through `state.subscribe`,
identified opaquely (callbacks are external code). -/
abbrev CallbackId := Nat

/-- What `state.notify` hands a callback: listeners on a concrete path get
`(newValue, oldValue, key)`, listeners on `'*'` get `{key, newValue,
oldValue}`. A deleted/absent slot (`undefined`) is `none`. -/
inductive Payload where
  | specific (newValue : Option Val) (oldValue : Option Val) (key : String)
  | global (key : String) (newValue : Option Val) (oldValue : Option Val)
  deriving Repr

/-- The private module state of `core.js` relevant to the state claims:
the tree `globalState` and the `stateListeners` map. -/
structure Store where
  tree : Obj
  listeners : List (String × List CallbackId)

/-- `state.notify(key, newValue, oldValue)`: call the listeners registered
for `key`, then the listeners registered for `'*'`. The returned list is
the sequence of callback invocations the call performs. -/
def notify (ls : List (String × List CallbackId)) (key : String)
    (newValue oldValue : Option Val) : List (CallbackId × Payload) :=
  (match ls.lookup key with
   | some cbs => cbs.map (fun cb => (cb, Payload.specific newValue oldValue key))
   | none => []) ++
  (match ls.lookup "*" with
   | some cbs => cbs.map (fun cb => (cb, Payload.global key newValue oldValue))
   | none => [])

/-- `hasChanged = !utils.deepEqual(oldValue, value)`; a previously absent
slot reads as `undefined`, and `deepEqual(undefined, v)` is `false` for
every JSON value `v`, so an absent old value always counts as changed. -/
def hasChangedOf : Option Val → Val → Bool
  | some o, v => !deepEqual o v
  | none, _ => true

/-- `state.set(key, value)` (core.js lines 58-89): navigate/assign, then
notify only when the value changed. Returns the updated store and the
callback invocations; `none` models the `TypeError` thrown on a `null`
intermediate. Auto-persistence (`config.autoSave`) is disabled by default
and does not affect the tree or the notifications. -/
def stateSet (st : Store) (key : String) (v : Val) :
    Option (Store × List (CallbackId × Payload)) :=
  match setGo st.tree (splitPath key) v with
  | none => none
  | some (tree', oldValue) =>
      some ({ st with tree := tree' },
        if hasChangedOf oldValue v then notify st.listeners key (some v) oldValue else [])

/-- Path navigation of `state.remove` (core.js lines 95-113): parents are
not auto-created here; a missing parent returns `false`, and the final key
is deleted when present. Returns the new tree and the old value when the
key existed. (A non-object parent would throw in JS; those states are not
reachable through `set`, and the claims do not touch them, so navigation is
modelled only through object children.) -/
def removeGo : Obj → List String → Option (Obj × Option Val)
  | _, [] => none
  | tree, [last] =>
      match tree.lookup last with
      | some old => some (tree.filter (fun e => e.1 ≠ last), some old)
      | none => some (tree, none)
  | tree, k :: rest =>
      match tree.lookup k with
      | some (.obj fs) =>
          (removeGo fs rest).map (fun r => (assocSet tree k (.obj r.1), r.2))
      | _ => none

/-- `state.remove(key)`: delete and notify with `undefined` as new value. -/
def stateRemove (st : Store) (key : String) :
    Bool × Store × List (CallbackId × Payload) :=
  match removeGo st.tree (splitPath key) with
  | some (tree', some old) =>
      (true, { st with tree := tree' }, notify st.listeners key none (some old))
  | some (_, none) => (false, st, [])
  | none => (false, st, [])

/-- `state.subscribe(key, callback)`: add the callback to the per-key set
(`Set.add`: appended once, duplicates ignored). -/
def subscribeStore (st : Store) (key : String) (cb : CallbackId) : Store :=
  { st with listeners :=
      match st.listeners.lookup key with
      | some cbs =>
          assocSet st.listeners key (if cb ∈ cbs then cbs else cbs ++ [cb])
      | none => assocSet st.listeners key [cb] }

/-- `state.getAll()`: a deep copy of the tree. -/
def getAllStore (st : Store) : Val := deepClone (.obj st.tree)

/-- `state.reset()` (core.js lines 190-195): empty the tree and notify the
`'*'` listeners once with the new (empty) and old tree. The `stateListeners`
map itself is left untouched; `storage.clear()` only touches persistence. -/
def stateReset (st : Store) : Store × List (CallbackId × Payload) :=
  ({ st with tree := [] },
   notify st.listeners "*" (some (.obj [])) (some (.obj st.tree)))

-- sanity checks: vivification, round trip, change detection
example : stateSet ⟨[], []⟩ "a.b" (.num 3) =
    some (⟨[("a", .obj [("b", .num 3)])], []⟩, []) := by rfl
example : (stateSet ⟨[], [("a.b", [7])]⟩ "a.b" (.num 3)).map (fun r => r.2) =
    some [(7, .specific (some (.num 3)) none "a.b")] := by rfl

/-- After `setGo` writes `v1` at a path, running `setGo` again along the
same path finds exactly `v1` as the old value (and cannot throw). -/
theorem setGo_then_setGo : ∀ (ks : List String) (tree tree1 : Obj) (old : Option Val)
    (v1 v2 : Val), setGo tree ks v1 = some (tree1, old) →
    ∃ tree2, setGo tree1 ks v2 = some (tree2, some v1) := by
  intro ks
  induction ks with
  | nil => intro tree tree1 old v1 v2 h; simp [setGo] at h
  | cons k ks' ih =>
      intro tree tree1 old v1 v2 h
      match ks' with
      | [] =>
          simp only [setGo, Option.some.injEq, Prod.mk.injEq] at h
          obtain ⟨h1, -⟩ := h
          refine ⟨assocSet tree1 k v2, ?_⟩
          simp [setGo, ← h1, assocSet_lookup_self]
      | k2 :: rest =>
          cases hc : childFor (tree.lookup k) with
          | none => simp [setGo, hc] at h
          | some fs =>
              simp only [setGo, hc] at h
              cases hgo : setGo fs (k2 :: rest) v1 with
              | none => simp [hgo] at h
              | some r =>
                  rw [hgo] at h
                  simp only [Option.map_some', Option.some.injEq, Prod.mk.injEq] at h
                  obtain ⟨h1, -⟩ := h
                  obtain ⟨tree2, h2⟩ := ih fs r.1 r.2 v1 v2 (by rw [hgo])
                  refine ⟨assocSet tree1 k (.obj tree2), ?_⟩
                  simp [setGo, ← h1, assocSet_lookup_self, childFor, h2]

/-- From an empty tree, `setGo` always succeeds, vivifies every parent,
and the final slot is fresh (old value `undefined`). -/
theorem setGo_from_empty : ∀ (ks : List String) (v : Val), ks ≠ [] →
    ∃ tree', setGo [] ks v = some (tree', none) := by
  intro ks
  induction ks with
  | nil => intro v h; exact absurd rfl h
  | cons k ks' ih =>
      intro v _
      match ks' with
      | [] => exact ⟨assocSet [] k v, rfl⟩
      | k2 :: rest =>
          obtain ⟨tree', h⟩ := ih v (by simp)
          refine ⟨assocSet [] k (.obj tree'), ?_⟩
          simp [setGo, List.lookup, childFor, h]

/-- C2. `set` compares the old and new value with `deepEqual` and notifies
only on a difference: writing a value and then writing any deep-equal value
(regardless of object identity / field order) fires no notification on the
second call. -/
theorem stateSet_deepEqual_no_notify (st : Store) (p : String) (v1 v2 : Val)
    (st1 : Store) (ns1 : List (CallbackId × Payload))
    (heq : deepEqual v1 v2 = true)
    (h1 : stateSet st p v1 = some (st1, ns1)) :
    ∃ st2, stateSet st1 p v2 = some (st2, []) := by
  unfold stateSet at h1 ⊢
  cases hgo : setGo st.tree (splitPath p) v1 with
  | none => rw [hgo] at h1; simp at h1
  | some r =>
      rw [hgo] at h1
      simp only [Option.some.injEq, Prod.mk.injEq] at h1
      obtain ⟨tree2, h2⟩ := setGo_then_setGo (splitPath p) st.tree r.1 r.2 v1 v2
        (by rw [hgo])
      have hst1 : st1.tree = r.1 := by rw [← h1.1]
      rw [hst1, h2]
      refine ⟨{ st1 with tree := tree2 }, ?_⟩
      simp [hasChangedOf, heq]

/-- Two deep-equal objects that are not identical (fields in a different
order, hence necessarily distinct references in JS). -/
def c2ValA : Val := .obj [("x", .num 1), ("y", .num 2)]

def c2ValB : Val := .obj [("y", .num 2), ("x", .num 1)]

/-- Witness for C2 at a concrete store, path and value pair. -/
theorem stateSet_deepEqual_no_notify_witness :
    deepEqual c2ValA c2ValB = true ∧
    ∃ st2, stateSet ⟨[("a", .obj [("b", c2ValA)])], [("a.b", [0])]⟩ "a.b" c2ValB =
      some (st2, []) :=
  ⟨by decide,
   stateSet_deepEqual_no_notify ⟨[], [("a.b", [0])]⟩ "a.b" c2ValA c2ValB
     ⟨[("a", .obj [("b", c2ValA)])], [("a.b", [0])]⟩
     [(0, .specific (some c2ValA) none "a.b")] (by decide) (by rfl)⟩

/-- A store with one value at `"a"` and one subscriber (id 0) on `"a"`. -/
def c3Store : Store := ⟨[("a", .num 5)], [("a", [0])]⟩

/-- C3 counterexample. `state.reset()` empties the tree but never touches
`stateListeners`: a callback subscribed to `"a"` before the reset still
fires on the very next `set("a", 1)`, refuting the claim that all prior
subscriptions are inert after `reset()`. -/
theorem stateReset_subscription_fires :
    getAllStore (stateReset c3Store).1 = .obj [] ∧
    stateSet (stateReset c3Store).1 "a" (.num 1) =
      some (⟨[("a", .num 1)], [("a", [0])]⟩,
        [(0, .specific (some (.num 1)) none "a")]) := ⟨rfl, rfl⟩

/-- C3 amended. After `reset()` the tree is empty (`getAll` returns `{}`),
but the subscription map is unchanged: every callback registered before the
reset stays registered, and fires again on the next `set` of its key. -/
theorem stateReset_tree_empty_listeners_kept (st : Store) :
    getAllStore (stateReset st).1 = .obj [] ∧
    (stateReset st).1.listeners = st.listeners ∧
    ∀ (key : String) (cbs : List CallbackId) (cb : CallbackId) (v : Val),
      st.listeners.lookup key = some cbs → cb ∈ cbs →
      ∃ st2 ns, stateSet (stateReset st).1 key v = some (st2, ns) ∧
        (cb, Payload.specific (some v) none key) ∈ ns := by
  refine ⟨rfl, rfl, ?_⟩
  intro key cbs cb v hlk hcb
  obtain ⟨tree', hgo⟩ := setGo_from_empty (splitPath key) v (splitPath_ne_nil key)
  refine ⟨⟨tree', st.listeners⟩, notify st.listeners key (some v) none, ?_, ?_⟩
  · simp [stateSet, stateReset, hgo, hasChangedOf]
  · unfold notify
    rw [hlk]
    exact List.mem_append_left _ (List.mem_map_of_mem _ hcb)

/-- Witness for the amended C3 at a concrete store and subscriber. -/
theorem stateReset_tree_empty_listeners_kept_witness :
    getAllStore (stateReset c3Store).1 = .obj [] ∧
    ∃ st2 ns, stateSet (stateReset c3Store).1 "a" (.num 7) = some (st2, ns) ∧
      (0, Payload.specific (some (.num 7)) none "a") ∈ ns :=
  ⟨(stateReset_tree_empty_listeners_kept c3Store).1,
   (stateReset_tree_empty_listeners_kept c3Store).2.2 "a" [0] 0 (.num 7)
     rfl (by decide)⟩

/-! ## CostCalculator (billing module `Calculator`) -/

/-- A tariff record `{interne, externe, prive}` of per-client-type unit
prices. JS numbers are modelled as exact rationals. -/
structure Tarif3 where
  interne : ℚ
  externe : ℚ
  prive : ℚ
  deriving DecidableEq, Repr

/-- The `[team.clientType]` read on a tariff record followed by `|| 0`: an
unknown client type reads `undefined`, coerced to 0 (a stored 0 is falsy
and also yields 0, unchanged). -/
def tarifFor (t : Tarif3) (ct : String) : ℚ :=
  if ct = "interne" then t.interne
  else if ct = "externe" then t.externe
  else if ct = "prive" then t.prive
  else 0

/-- A manipulation entry of a team (`{name, samples, date?, session?}`). -/
structure Manip where
  name : String
  samples : ℚ
  date : Option String
  session : Option String
  deriving DecidableEq, Repr

/-- A team record, with the fields the cost calculator reads. -/
structure Team where
  name : String
  laboratory : Option String
  clientType : String
  microscopeSessions : List ℚ
  manipulations : List Manip
  deriving DecidableEq, Repr

/-- The slice of the configuration the calculator reads from the state
(`config.microscopes`, `config.tarifs.microscopes`, `config.tarifs.services`). -/
structure TariffCfg where
  microscopes : List String
  microscopeTarifs : List (String × Tarif3)
  serviceTarifs : List (String × Tarif3)
  deriving DecidableEq, Repr

/-- A microscope line item pushed by `calculateTeamCost`; `name` is
`microscopes[index]`, which is `undefined` (`none`) when the sessions array
is longer than the configured list. -/
structure MicroLine where
  name : Option String
  sessions : ℚ
  unitPrice : ℚ
  total : ℚ
  deriving DecidableEq, Repr

/-- A service line item pushed by `calculateTeamCost`. -/
structure ServiceLine where
  name : String
  quantity : ℚ
  unitPrice : ℚ
  total : ℚ
  date : Option String
  session : Option String
  deriving DecidableEq, Repr

/-- The result shape of `Calculator.calculateTeamCost`. -/
structure CostDetails where
  microscopes : List MicroLine
  services : List ServiceLine
  total : ℚ
  vat : ℚ
  totalWithVat : ℚ
  deriving DecidableEq, Repr

/-- `config.vatRate = 0.20` (TVA 20%). -/
def vatRate : ℚ := 0.20

/-- One iteration of the `team.microscopeSessions?.forEach((sessions,
index) => ...)` loop: when `sessions > 0`, resolve the microscope name by
position, read its tariff for the team's client type, push a line item and
accumulate the subtotal. -/
def microStep (cfg : TariffCfg) (ct : String) (acc : List MicroLine × ℚ)
    (p : Nat × ℚ) : List MicroLine × ℚ :=
  if p.2 > 0 then
    let name := cfg.microscopes.get? p.1
    let tarif :=
      match name with
      | some n =>
          match cfg.microscopeTarifs.lookup n with
          | some t => tarifFor t ct
          | none => 0
      | none => 0
    (acc.1 ++ [⟨name, p.2, tarif, p.2 * tarif⟩], acc.2 + p.2 * tarif)
  else acc

/-- The whole microscope loop of `calculateTeamCost`. -/
def microPass (cfg : TariffCfg) (ct : String) (sess : List ℚ) :
    List MicroLine × ℚ :=
  sess.enum.foldl (microStep cfg ct) ([], 0)

/-- One iteration of the `team.manipulations?.forEach(manip => ...)` loop:
when `samples > 0`, read the service tariff, push a line item carrying the
`date`/`session` metadata and accumulate the subtotal. -/
def serviceStep (cfg : TariffCfg) (ct : String) (acc : List ServiceLine × ℚ)
    (m : Manip) : List ServiceLine × ℚ :=
  if m.samples > 0 then
    let tarif :=
      match cfg.serviceTarifs.lookup m.name with
      | some t => tarifFor t ct
      | none => 0
    (acc.1 ++ [⟨m.name, m.samples, tarif, m.samples * tarif, m.date, m.session⟩],
     acc.2 + m.samples * tarif)
  else acc

/-- The whole manipulations loop, continuing the running subtotal. -/
def servicePass (cfg : TariffCfg) (ct : String) (manips : List Manip)
    (start : ℚ) : List ServiceLine × ℚ :=
  manips.foldl (serviceStep cfg ct) ([], start)

/-- `Calculator.calculateTeamCost(team)` (billing module lines 43-101),
with the configuration it reads from the state passed explicitly. -/
def calculateTeamCost (cfg : TariffCfg) (team : Team) : CostDetails :=
  let mp := microPass cfg team.clientType team.microscopeSessions
  let sp := servicePass cfg team.clientType team.manipulations mp.2
  let subtotal := sp.2
  let vat := if team.clientType = "prive" then subtotal * vatRate else 0
  { microscopes := mp.1, services := sp.1, total := subtotal, vat := vat,
    totalWithVat := subtotal + vat }

theorem micro_inv (cfg : TariffCfg) (ct : String) :
    ∀ (ps : List (Nat × ℚ)) (acc : List MicroLine × ℚ),
      (ps.foldl (microStep cfg ct) acc).2 -
        (((ps.foldl (microStep cfg ct) acc).1).map MicroLine.total).sum =
      acc.2 - (acc.1.map MicroLine.total).sum := by
  intro ps
  induction ps with
  | nil => intro acc; rfl
  | cons p ps ih =>
      intro acc
      rw [List.foldl_cons, ih]
      unfold microStep
      by_cases h : p.2 > 0
      · simp only [h, if_true, List.map_append, List.sum_append, List.map_cons,
          List.map_nil, List.sum_cons, List.sum_nil]
        ring
      · simp [h]

theorem service_inv (cfg : TariffCfg) (ct : String) :
    ∀ (ms : List Manip) (acc : List ServiceLine × ℚ),
      (ms.foldl (serviceStep cfg ct) acc).2 -
        (((ms.foldl (serviceStep cfg ct) acc).1).map ServiceLine.total).sum =
      acc.2 - (acc.1.map ServiceLine.total).sum := by
  intro ms
  induction ms with
  | nil => intro acc; rfl
  | cons m ms ih =>
      intro acc
      rw [List.foldl_cons, ih]
      unfold serviceStep
      by_cases h : m.samples > 0
      · simp only [h, if_true, List.map_append, List.sum_append, List.map_cons,
          List.map_nil, List.sum_cons, List.sum_nil]
        ring
      · simp [h]

/-- C1. The subtotal returned by `calculateTeamCost` is exactly the sum of
the microscope and service line totals; VAT is 20% of it for `prive` teams
and 0 for every other client type; `totalWithVat` is their sum. -/
theorem calculateTeamCost_vat (cfg : TariffCfg) (team : Team) :
    (calculateTeamCost cfg team).total =
      ((calculateTeamCost cfg team).microscopes.map MicroLine.total).sum +
        ((calculateTeamCost cfg team).services.map ServiceLine.total).sum ∧
    (team.clientType = "prive" →
      (calculateTeamCost cfg team).vat = (calculateTeamCost cfg team).total * 0.20) ∧
    (team.clientType ≠ "prive" → (calculateTeamCost cfg team).vat = 0) ∧
    (calculateTeamCost cfg team).totalWithVat =
      (calculateTeamCost cfg team).total + (calculateTeamCost cfg team).vat := by
  have hm := micro_inv cfg team.clientType team.microscopeSessions.enum ([], 0)
  have hs := service_inv cfg team.clientType team.manipulations
    ([], (microPass cfg team.clientType team.microscopeSessions).2)
  simp only [List.map_nil, List.sum_nil, sub_zero] at hm hs
  refine ⟨?_, ?_, ?_, ?_⟩
  · simp only [calculateTeamCost]
    unfold servicePass microPass
    unfold microPass at hs
    linarith
  · intro h; simp [calculateTeamCost, h, vatRate]
  · intro h; simp [calculateTeamCost, h]
  · rfl

/-- Witness for C1: the spec's own scenario (Tecnai 200 KV at 180 for
`prive`, 2 sessions → total 360, vat 72, totalWithVat 432). -/
def tecnaiCfg : TariffCfg :=
  { microscopes := ["Tecnai 200 KV"],
    microscopeTarifs := [("Tecnai 200 KV", ⟨60, 120, 180⟩)],
    serviceTarifs := [] }

def tecnaiPriveTeam : Team :=
  { name := "T1", laboratory := some "LAB", clientType := "prive",
    microscopeSessions := [2], manipulations := [] }

theorem calculateTeamCost_vat_witness :
    (calculateTeamCost tecnaiCfg tecnaiPriveTeam).vat =
      (calculateTeamCost tecnaiCfg tecnaiPriveTeam).total * 0.20 ∧
    (calculateTeamCost tecnaiCfg tecnaiPriveTeam).totalWithVat =
      (calculateTeamCost tecnaiCfg tecnaiPriveTeam).total +
        (calculateTeamCost tecnaiCfg tecnaiPriveTeam).vat :=
  ⟨(calculateTeamCost_vat tecnaiCfg tecnaiPriveTeam).2.1 rfl,
   (calculateTeamCost_vat tecnaiCfg tecnaiPriveTeam).2.2.2⟩

-- concrete evaluation sanity checks (spec §8 scenarios)
example : (calculateTeamCost tecnaiCfg tecnaiPriveTeam).total = 360 ∧
    (calculateTeamCost tecnaiCfg tecnaiPriveTeam).vat = 72 ∧
    (calculateTeamCost tecnaiCfg tecnaiPriveTeam).totalWithVat = 432 := by
  refine ⟨?_, ?_, ?_⟩ <;>
    (norm_num [calculateTeamCost, microPass, servicePass, microStep, serviceStep,
      tecnaiCfg, tecnaiPriveTeam, List.enum, List.enumFrom, tarifFor,
      List.lookup, vatRate]
     ; simp only [String.reduceEq, reduceIte]; try norm_num)

/-! ## `Calculator.calculateTotal` (billing module lines 106-160) -/

/-- A `{count, amount}` accumulator entry. -/
structure CountAmount where
  count : ℚ
  amount : ℚ
  deriving DecidableEq, Repr

/-- A `{sessions, amount}` accumulator entry of `byMicroscope`. -/
structure SessAmount where
  sessions : ℚ
  amount : ℚ
  deriving DecidableEq, Repr

/-- A `{quantity, amount}` accumulator entry of `byService`. -/
structure QtyAmount where
  quantity : ℚ
  amount : ℚ
  deriving DecidableEq, Repr

/-- The result shape of `Calculator.calculateTotal`; the four breakdown
objects are association lists in insertion order. -/
structure Aggregate where
  subtotal : ℚ
  vat : ℚ
  total : ℚ
  byType : List (String × CountAmount)
  byLaboratory : List (String × CountAmount)
  byMicroscope : List (String × SessAmount)
  byService : List (String × QtyAmount)
  deriving DecidableEq, Repr

/-- The fixed `byType` object of the initial `result`:
`{interne: {count:0,amount:0}, externe: ..., prive: ...}`. -/
def byTypeInit : List (String × CountAmount) :=
  [("interne", ⟨0, 0⟩), ("externe", ⟨0, 0⟩), ("prive", ⟨0, 0⟩)]

/-- The initial `result` object of `calculateTotal`. -/
def initialAggregate : Aggregate :=
  { subtotal := 0, vat := 0, total := 0, byType := byTypeInit,
    byLaboratory := [], byMicroscope := [], byService := [] }

/-- `result.byType[team.clientType].count++; ....amount += x`: `byType` has
only its three fixed keys, so an unknown client type reads `undefined` and
the `.count` access throws a `TypeError` — modelled by `none`. -/
def byTypeBump (m : List (String × CountAmount)) (ct : String) (amt : ℚ) :
    Option (List (String × CountAmount)) :=
  match m.lookup ct with
  | some _ => some (m.map (fun p =>
      if p.1 = ct then (p.1, ⟨p.2.count + 1, p.2.amount + amt⟩) else p))
  | none => none

/-- `const lab = team.laboratory || 'Non spécifié'` (an empty string is
falsy too). -/
def labKey (t : Team) : String :=
  match t.laboratory with
  | some l => if l = "" then "Non spécifié" else l
  | none => "Non spécifié"

/-- `if (!m[k]) m[k] = {count:0, amount:0}; m[k].count++; m[k].amount += amt`. -/
def upsertCount (m : List (String × CountAmount)) (k : String) (amt : ℚ) :
    List (String × CountAmount) :=
  match m.lookup k with
  | some _ => m.map (fun p =>
      if p.1 = k then (p.1, ⟨p.2.count + 1, p.2.amount + amt⟩) else p)
  | none => m ++ [(k, ⟨1, amt⟩)]

/-- `if (!m[k]) m[k] = {sessions:0, amount:0}; m[k].sessions += s; m[k].amount += amt`. -/
def upsertSess (m : List (String × SessAmount)) (k : String) (s amt : ℚ) :
    List (String × SessAmount) :=
  match m.lookup k with
  | some _ => m.map (fun p =>
      if p.1 = k then (p.1, ⟨p.2.sessions + s, p.2.amount + amt⟩) else p)
  | none => m ++ [(k, ⟨s, amt⟩)]

/-- `if (!m[k]) m[k] = {quantity:0, amount:0}; m[k].quantity += q; m[k].amount += amt`. -/
def upsertQty (m : List (String × QtyAmount)) (k : String) (q amt : ℚ) :
    List (String × QtyAmount) :=
  match m.lookup k with
  | some _ => m.map (fun p =>
      if p.1 = k then (p.1, ⟨p.2.quantity + q, p.2.amount + amt⟩) else p)
  | none => m ++ [(k, ⟨q, amt⟩)]

/-- JS coerces the key `undefined` (a line item whose microscope name is
missing) to the string key `"undefined"`. -/
def microKeyOf : Option String → String
  | some n => n
  | none => "undefined"

/-- One iteration of the `teams.forEach(team => ...)` loop of
`calculateTotal`: accumulate the three sums and the four breakdowns;
`none` models the `TypeError` thrown by the `byType` access for a client
type outside the three fixed keys. -/
def totalStep (cfg : TariffCfg) (acc : Aggregate) (team : Team) : Option Aggregate :=
  let cost := calculateTeamCost cfg team
  match byTypeBump acc.byType team.clientType cost.totalWithVat with
  | none => none
  | some bt =>
      some { subtotal := acc.subtotal + cost.total,
             vat := acc.vat + cost.vat,
             total := acc.total + cost.totalWithVat,
             byType := bt,
             byLaboratory := upsertCount acc.byLaboratory (labKey team) cost.totalWithVat,
             byMicroscope := cost.microscopes.foldl
               (fun m mi => upsertSess m (microKeyOf mi.name) mi.sessions mi.total)
               acc.byMicroscope,
             byService := cost.services.foldl
               (fun m s => upsertQty m s.name s.quantity s.total)
               acc.byService }

/-- `Calculator.calculateTotal(teams)`, with the configuration passed
explicitly; `none` models an uncaught `TypeError`. -/
def calculateTotal (cfg : TariffCfg) (teams : List Team) : Option Aggregate :=
  teams.foldlM (totalStep cfg) initialAggregate

/-- C4 (amended). `calculateTotal([])` returns zero sums, the three fixed
zero-valued `byType` keys, and empty `byLaboratory`/`byMicroscope`/
`byService` maps, without throwing. -/
theorem calculateTotal_nil (cfg : TariffCfg) :
    calculateTotal cfg [] =
      some { subtotal := 0, vat := 0, total := 0,
             byType := [("interne", ⟨0, 0⟩), ("externe", ⟨0, 0⟩), ("prive", ⟨0, 0⟩)],
             byLaboratory := [], byMicroscope := [], byService := [] } := rfl

/-- C4 counterexample to the claim as stated: on the empty team collection
`byType` is NOT an empty map — it still carries its three fixed keys. -/
theorem calculateTotal_nil_byType_not_empty :
    (calculateTotal ⟨[], [], []⟩ []).map Aggregate.byType = some byTypeInit ∧
    byTypeInit ≠ [] := ⟨rfl, by simp [byTypeInit]⟩

/-- The three client types `validateTeam` accepts and `byType` carries. -/
def validClientTypes : List String := ["interne", "externe", "prive"]

theorem lookup_isSome_iff {β : Type} (l : List (String × β)) (k : String) :
    (l.lookup k).isSome ↔ k ∈ l.map Prod.fst := by
  induction l with
  | nil => simp [List.lookup]
  | cons hd tl ih =>
      obtain ⟨k', v'⟩ := hd
      by_cases h : k = k'
      · subst h; simp [List.lookup]
      · have hne : (k == k') = false := by simp [h]
        simp [List.lookup, hne, ih, h]

theorem byTypeBump_keys (m : List (String × CountAmount)) (ct : String) (amt : ℚ)
    (m' : List (String × CountAmount)) (h : byTypeBump m ct amt = some m') :
    m'.map Prod.fst = m.map Prod.fst := by
  unfold byTypeBump at h
  cases hl : m.lookup ct with
  | none => rw [hl] at h; simp at h
  | some v =>
      rw [hl] at h
      simp only [Option.some.injEq] at h
      subst h
      rw [List.map_map]
      apply List.map_congr_left
      intro p _
      by_cases hp : p.1 = ct <;> simp [hp]

theorem calculateTotal_go (cfg : TariffCfg) :
    ∀ (teams : List Team) (acc : Aggregate),
      acc.byType.map Prod.fst = validClientTypes →
      ((∀ t ∈ teams, t.clientType ∈ validClientTypes) →
        (teams.foldlM (totalStep cfg) acc).isSome) ∧
      ((∃ t ∈ teams, t.clientType ∉ validClientTypes) →
        teams.foldlM (totalStep cfg) acc = none) := by
  intro teams
  induction teams with
  | nil =>
      intro acc hkeys
      constructor
      · intro _; simp [List.foldlM]
      · rintro ⟨t, ht, -⟩; simp at ht
  | cons t ts ih =>
      intro acc hkeys
      by_cases hct : t.clientType ∈ validClientTypes
      · have hsome : (acc.byType.lookup t.clientType).isSome := by
          rw [lookup_isSome_iff, hkeys]; exact hct
        obtain ⟨bt, hbt⟩ : ∃ bt, byTypeBump acc.byType t.clientType
            (calculateTeamCost cfg t).totalWithVat = some bt := by
          unfold byTypeBump
          cases hl : acc.byType.lookup t.clientType with
          | none => rw [hl] at hsome; simp at hsome
          | some v => exact ⟨_, rfl⟩
        have hstep : ∃ acc', totalStep cfg acc t = some acc' ∧
            acc'.byType = bt := by
          simp only [totalStep]
          rw [hbt]
          exact ⟨_, rfl, rfl⟩
        obtain ⟨acc', hacc', hbteq⟩ := hstep
        have hkeys' : acc'.byType.map Prod.fst = validClientTypes := by
          rw [hbteq, byTypeBump_keys _ _ _ _ hbt, hkeys]
        constructor
        · intro hall
          rw [List.foldlM_cons, hacc']
          exact (ih acc' hkeys').1 (fun u hu => hall u (List.mem_cons_of_mem _ hu))
        · rintro ⟨u, hu, hbad⟩
          rw [List.foldlM_cons, hacc']
          rcases List.mem_cons.mp hu with h | h
          · exact absurd (h ▸ hct) hbad
          · exact (ih acc' hkeys').2 ⟨u, h, hbad⟩
      · have hlk : acc.byType.lookup t.clientType = none := by
          cases hl : acc.byType.lookup t.clientType with
          | none => rfl
          | some v =>
              exfalso
              have : t.clientType ∈ validClientTypes := by
                rw [← hkeys, ← lookup_isSome_iff]; simp [hl]
              exact hct this
        have hnone : totalStep cfg acc t = none := by
          simp only [totalStep, byTypeBump, hlk]
        constructor
        · intro hall
          exact absurd (hall t (List.mem_cons_self t ts)) hct
        · intro _
          rw [List.foldlM_cons, hnone]
          rfl

/-- C10. `calculateTotal` requires every team's `clientType` to be one of
`interne`/`externe`/`prive`: under that precondition it returns a result,
and any list containing a team with a `clientType` outside that set makes
the `byType` accumulation dereference a missing entry and throw. -/
theorem calculateTotal_clientType_precondition (cfg : TariffCfg) (teams : List Team) :
    ((∀ t ∈ teams, t.clientType ∈ validClientTypes) →
      (calculateTotal cfg teams).isSome) ∧
    ((∃ t ∈ teams, t.clientType ∉ validClientTypes) →
      calculateTotal cfg teams = none) :=
  calculateTotal_go cfg teams initialAggregate rfl

/-- A team whose client type is outside the fixed three. -/
def strayTeam : Team :=
  { name := "S", laboratory := some "LAB", clientType := "gouvernemental",
    microscopeSessions := [], manipulations := [] }

/-- Witness for C10 at concrete inputs: a well-typed team list succeeds, a
list containing a stray client type throws. -/
theorem calculateTotal_clientType_precondition_witness :
    (calculateTotal tecnaiCfg [tecnaiPriveTeam]).isSome ∧
    calculateTotal tecnaiCfg [tecnaiPriveTeam, strayTeam] = none :=
  ⟨(calculateTotal_clientType_precondition tecnaiCfg [tecnaiPriveTeam]).1
      (by intro t ht; rw [List.mem_singleton] at ht; subst ht; decide),
   (calculateTotal_clientType_precondition tecnaiCfg [tecnaiPriveTeam, strayTeam]).2
      ⟨strayTeam, by simp [strayTeam], by decide⟩⟩


/-! ## KeyValueStore (core.js `storage`) -/

/-- The decimal digit character for `m < 10`. -/
def digitChar (m : Nat) : Char := Char.ofNat (48 + m)

/-- Decimal rendering of a natural number, as JS `String(n)` produces it
for a non-negative integer. -/
def natRepr (n : Nat) : List Char :=
  if _h : n < 10 then [digitChar n]
  else natRepr (n / 10) ++ [digitChar (n % 10)]
termination_by n
decreasing_by exact Nat.div_lt_self (by omega) (by omega)

/-- JS `String(n)` for an integer. -/
def intRepr (n : Int) : String :=
  if n < 0 then String.mk ('-' :: natRepr n.natAbs) else String.mk (natRepr n.natAbs)

/-- JSON string escaping of one character, as `JSON.stringify` performs it:
quote, backslash, the named control escapes, `\u00XX` for the remaining
control characters, everything else verbatim. -/
def escapeChar (c : Char) : List Char :=
  if c = '"' then ['\\', '"']
  else if c = '\\' then ['\\', '\\']
  else if c = '\x08' then ['\\', 'b']
  else if c = '\t' then ['\\', 't']
  else if c = '\n' then ['\\', 'n']
  else if c = '\x0c' then ['\\', 'f']
  else if c = '\r' then ['\\', 'r']
  else if c.toNat < 32 then
    ['\\', 'u', '0', '0',
     (if c.toNat / 16 < 10 then Char.ofNat (48 + c.toNat / 16)
      else Char.ofNat (87 + c.toNat / 16)),
     (if c.toNat % 16 < 10 then Char.ofNat (48 + c.toNat % 16)
      else Char.ofNat (87 + c.toNat % 16))]
  else [c]

/-- JSON escaping over a character sequence. -/
def escapeList : List Char → List Char
  | [] => []
  | c :: rest => escapeChar c ++ escapeList rest

/-- A JSON string literal: `"` + escaped contents + `"`. -/
def quoteString (s : String) : String :=
  String.mk ('"' :: (escapeList s.data ++ ['"']))

mutual
/-- `JSON.stringify(data)` restricted to the JSON-like values of `Val`. -/
def stringify : Val → String
  | .null => "null"
  | .bool true => "true"
  | .bool false => "false"
  | .num n => intRepr n
  | .str s => quoteString s
  | .obj fs => "\x7b" ++ stringifyFields fs ++ "\x7d"
termination_by structural v => v

/-- Comma-separated `"key":value` members of a JSON object. -/
def stringifyFields : List (String × Val) → String
  | [] => ""
  | [(k, v)] => quoteString k ++ ":" ++ stringify v
  | (k, v) :: rest => quoteString k ++ ":" ++ stringify v ++ "," ++ stringifyFields rest
termination_by structural l => l
end

/-- `config.storagePrefix = 'billing_'`. -/
def storagePfx : String := "billing_"

/-- `config.maxStorageSize = 5 * 1024 * 1024` (the 5 MiB cap). -/
def maxStorageSize : Nat := 5 * 1024 * 1024

/-- The underlying synchronous medium (`localStorage`): full keys mapped to
serialized strings. The quota of the medium itself is not modelled; the
claims only exercise the size-cap branch, which fires before the medium is
ever touched. -/
structure StorageState where
  entries : List (String × String)
  deriving DecidableEq, Repr

/-- Observable storage events of `storage.save` (`events.emit`). -/
inductive StorageEvt where
  | saved (key : String) (size : Nat)
  | errorSizeExceeded (key : String) (size : Nat)
  deriving Repr

/-- `storage.save(key, data)` (core.js lines 314-345): serialize, reject
with a `storage:error{type:'size_exceeded'}` event when the serialized
length exceeds the cap (no write happens), otherwise write under the
namespaced key and emit `storage:saved`. Lengths count characters, matching
JS `.length` on the ASCII/BMP strings involved. -/
def storageSave (st : StorageState) (key : String) (v : Val) :
    Bool × StorageState × List StorageEvt :=
  let fullKey := storagePfx ++ key
  let serialized := stringify v
  if serialized.length > maxStorageSize then
    (false, st, [.errorSizeExceeded key serialized.length])
  else
    (true, ⟨assocSet st.entries fullKey serialized⟩, [.saved key serialized.length])

/-- `storage.exists(key)`: `localStorage.getItem(prefix + key) !== null`. -/
def storageExists (st : StorageState) (key : String) : Bool :=
  (st.entries.lookup (storagePfx ++ key)).isSome

/-- C5. Oversized saves are rejected: `save` returns `false`, emits exactly
one `storage:error{type:'size_exceeded'}` event, and leaves the medium
untouched (so the key exists afterwards iff it existed before). -/
theorem storageSave_size_exceeded (st : StorageState) (key : String) (v : Val)
    (h : (stringify v).length > maxStorageSize) :
    storageSave st key v = (false, st, [.errorSizeExceeded key (stringify v).length]) ∧
    storageExists (storageSave st key v).2.1 key = storageExists st key := by
  refine ⟨?_, ?_⟩ <;> simp [storageSave, h]

theorem escapeChar_a : escapeChar 'a' = ['a'] := by decide

theorem escapeList_replicate_a (n : Nat) :
    escapeList (List.replicate n 'a') = List.replicate n 'a' := by
  induction n with
  | zero => rfl
  | succ n ih => simp [List.replicate_succ, escapeList, escapeChar_a, ih]

/-- A 5 MiB + 1 character blob. -/
def hugeBlob : Val := .str (String.mk (List.replicate 5242881 'a'))

theorem hugeBlob_length : (stringify hugeBlob).length = 5242883 := by
  have h1 : stringify hugeBlob =
      String.mk ('"' :: (escapeList (List.replicate 5242881 'a') ++ ['"'])) := rfl
  rw [h1, escapeList_replicate_a, String.length_mk, List.length_cons,
    List.length_append, List.length_replicate]
  rfl

/-- Witness for C5: saving the blob on a fresh store returns `false`, fires
the `size_exceeded` event, and leaves no entry for `"x"`. -/
theorem storageSave_size_exceeded_witness :
    (stringify hugeBlob).length > maxStorageSize ∧
    storageSave ⟨[]⟩ "x" hugeBlob =
      (false, ⟨[]⟩, [.errorSizeExceeded "x" (stringify hugeBlob).length]) ∧
    storageExists (storageSave ⟨[]⟩ "x" hugeBlob).2.1 "x" = false := by
  have h : (stringify hugeBlob).length > maxStorageSize := by
    rw [hugeBlob_length]; norm_num [maxStorageSize]
  refine ⟨h, (storageSave_size_exceeded ⟨[]⟩ "x" hugeBlob h).1, ?_⟩
  rw [(storageSave_size_exceeded ⟨[]⟩ "x" hugeBlob h).2]
  rfl

/-! ## InvoiceLedger (billing module `InvoiceGenerator` / `init`) -/

/-- `parseInt` on a digit sequence (most significant first). -/
def digitsToNat (l : List Char) : Nat :=
  l.foldl (fun a c => 10 * a + (c.toNat - 48)) 0

/-- The regex match `number.match(/(\d{4})$/)` followed by
`parseInt(match[1])`: succeeds iff the string ends in at least four digit
characters, and captures the value of the last four. -/
def extractSuffix (s : String) : Option Nat :=
  if 4 ≤ s.data.length then
    let last4 := s.data.drop (s.data.length - 4)
    if last4.all Char.isDigit then some (digitsToNat last4) else none
  else none

/-- `String(counter).padStart(4, '0')`. -/
def padStart4 (l : List Char) : List Char :=
  if 4 ≤ l.length then l else List.replicate (4 - l.length) '0' ++ l

/-- `InvoiceGenerator.generateInvoiceNumber()` (billing module lines
218-225): `PREFIX-YYYYMM-NNNN` built from the current counter; the
`YYYYMM` part comes from the wall clock and is passed in here. -/
def generateInvoiceNumber (pfx yearMonth : String) (counter : Nat) : String :=
  pfx ++ "-" ++ yearMonth ++ "-" ++ String.mk (padStart4 (natRepr counter))

/-- An invoice record, restricted to the field the counter seeding reads. -/
structure Invoice where
  number : String
  deriving DecidableEq, Repr

/-- The counter seeding of `BillingModule.init` (lines 766-787): starting
from `invoiceCounter = 1`, when invoices exist take the LAST stored invoice,
match its trailing four digits, and on a match seed `parseInt(suffix) + 1`. -/
def seedCounter (invoices : List Invoice) : Nat :=
  match invoices.getLast? with
  | none => 1
  | some lastInvoice =>
      match extractSuffix lastInvoice.number with
      | some m => m + 1
      | none => 1

theorem natRepr_lt_10 (n : Nat) (h : n < 10) : natRepr n = [digitChar n] := by
  unfold natRepr; simp [h]

theorem natRepr_ge_10 (n : Nat) (h : ¬ n < 10) :
    natRepr n = natRepr (n / 10) ++ [digitChar (n % 10)] := by
  conv_lhs => rw [natRepr]
  simp [h]

theorem digitChar_toNat (m : Nat) (h : m < 10) : (digitChar m).toNat = 48 + m := by
  interval_cases m <;> decide

theorem digitChar_isDigit (m : Nat) (h : m < 10) : (digitChar m).isDigit = true := by
  interval_cases m <;> decide

theorem natRepr_all_digits (n : Nat) : ∀ c ∈ natRepr n, c.isDigit = true := by
  induction n using natRepr.induct with
  | case1 n h =>
      rw [natRepr_lt_10 n h]
      intro c hc
      rw [List.mem_singleton] at hc
      subst hc
      exact digitChar_isDigit n h
  | case2 n h ih =>
      rw [natRepr_ge_10 n h]
      intro c hc
      rcases List.mem_append.mp hc with h1 | h1
      · exact ih c h1
      · rw [List.mem_singleton] at h1
        subst h1
        exact digitChar_isDigit _ (Nat.mod_lt _ (by omega))

theorem digitsToNat_append_digit (l : List Char) (c : Char) :
    digitsToNat (l ++ [c]) = 10 * digitsToNat l + (c.toNat - 48) := by
  simp [digitsToNat, List.foldl_append]

theorem digitsToNat_natRepr (n : Nat) : digitsToNat (natRepr n) = n := by
  induction n using natRepr.induct with
  | case1 n h =>
      rw [natRepr_lt_10 n h]
      simp [digitsToNat, digitChar_toNat n h]
  | case2 n h ih =>
      rw [natRepr_ge_10 n h, digitsToNat_append_digit, ih,
        digitChar_toNat _ (Nat.mod_lt _ (by omega))]
      omega

theorem natRepr_length_le_four (n : Nat) (h : n ≤ 9999) : (natRepr n).length ≤ 4 := by
  have e1 : ∀ m : Nat, m < 10 → (natRepr m).length = 1 := by
    intro m hm; rw [natRepr_lt_10 m hm]; rfl
  have e2 : ∀ m : Nat, m < 100 → (natRepr m).length ≤ 2 := by
    intro m hm
    by_cases h1 : m < 10
    · rw [e1 m h1]; omega
    · rw [natRepr_ge_10 m h1]
      simp [e1 (m / 10) (by omega)]
  have e3 : ∀ m : Nat, m < 1000 → (natRepr m).length ≤ 3 := by
    intro m hm
    by_cases h1 : m < 100
    · have := e2 m h1; omega
    · rw [natRepr_ge_10 m (by omega)]
      have := e2 (m / 10) (by omega)
      simp
      omega
  by_cases h1 : n < 1000
  · have := e3 n h1; omega
  · rw [natRepr_ge_10 n (by omega)]
    have := e3 (n / 10) (by omega)
    simp
    omega

theorem padStart4_length (l : List Char) (h : l.length ≤ 4) :
    (padStart4 l).length = 4 := by
  unfold padStart4
  by_cases h4 : 4 ≤ l.length
  · simp only [if_pos h4]; omega
  · simp only [if_neg h4, List.length_append, List.length_replicate]; omega

theorem padStart4_all_digits (l : List Char) (hl : ∀ c ∈ l, c.isDigit = true) :
    ∀ c ∈ padStart4 l, c.isDigit = true := by
  unfold padStart4
  by_cases h4 : 4 ≤ l.length
  · simp only [if_pos h4]; exact hl
  · simp only [if_neg h4]
    intro c hc
    rcases List.mem_append.mp hc with h1 | h1
    · rw [List.eq_of_mem_replicate h1]; decide
    · exact hl c h1

theorem digitsToNat_zeros_append (k : Nat) (l : List Char) :
    digitsToNat (List.replicate k '0' ++ l) = digitsToNat l := by
  induction k with
  | zero => simp
  | succ k ih =>
      have hsp : List.replicate (k + 1) '0' ++ l = '0' :: (List.replicate k '0' ++ l) := by
        simp [List.replicate_succ]
      rw [hsp]
      show digitsToNat (List.replicate k '0' ++ l) = digitsToNat l
      exact ih

theorem extractSuffix_append (pre : String) (l : List Char) (hlen : l.length = 4)
    (hdig : ∀ c ∈ l, c.isDigit = true) :
    extractSuffix (pre ++ String.mk l) = some (digitsToNat l) := by
  have hdata : (pre ++ String.mk l).data = pre.data ++ l := String.data_append _ _
  have h4 : 4 ≤ (pre.data ++ l).length := by simp [hlen]
  have hdrop : (pre.data ++ l).drop ((pre.data ++ l).length - 4) = l := by
    have hs : (pre.data ++ l).length - 4 = pre.data.length := by simp [hlen]
    rw [hs]
    exact List.drop_left pre.data l
  have hall : l.all Char.isDigit = true := List.all_eq_true.mpr hdig
  simp only [extractSuffix, hdata, hdrop, if_pos h4, hall, if_pos]

theorem extractSuffix_generateInvoiceNumber (pfx ym : String) (c : Nat)
    (h : c ≤ 9999) :
    extractSuffix (generateInvoiceNumber pfx ym c) = some c := by
  have hlen : (padStart4 (natRepr c)).length = 4 :=
    padStart4_length _ (natRepr_length_le_four c h)
  have hdig : ∀ ch ∈ padStart4 (natRepr c), ch.isDigit = true :=
    padStart4_all_digits _ (natRepr_all_digits c)
  have hval : digitsToNat (padStart4 (natRepr c)) = c := by
    unfold padStart4
    by_cases h4 : 4 ≤ (natRepr c).length
    · simp only [if_pos h4]; exact digitsToNat_natRepr c
    · simp only [if_neg h4]
      rw [digitsToNat_zeros_append]
      exact digitsToNat_natRepr c
  have hre : generateInvoiceNumber pfx ym c =
      (pfx ++ "-" ++ ym ++ "-") ++ String.mk (padStart4 (natRepr c)) := rfl
  rw [hre, extractSuffix_append _ _ hlen hdig, hval]

/-- Stored invoices whose numbers are NOT in increasing suffix order: the
last one has a lower suffix than an earlier one. -/
def invFive : Invoice := ⟨"FAC-202501-0005"⟩

def invTwo : Invoice := ⟨"FAC-202501-0002"⟩

/-- C6 counterexample to the claim as stated: the counter is seeded from
the LAST stored invoice, not from the highest suffix, so with invoices
`[...0005, ...0002]` the next generated number carries suffix 3, which is
not greater than the existing suffix 5 (numbers can be reused). -/
theorem seedCounter_last_not_highest :
    seedCounter [invFive, invTwo] = 3 ∧
    extractSuffix (generateInvoiceNumber "FAC" "202510"
      (seedCounter [invFive, invTwo])) = some 3 ∧
    extractSuffix invFive.number = some 5 ∧ ¬ (5 < 3) := by
  have h1 : seedCounter [invFive, invTwo] = 3 := by decide
  refine ⟨h1, ?_, by decide, by decide⟩
  rw [h1]
  exact extractSuffix_generateInvoiceNumber "FAC" "202510" 3 (by omega)

/-- C6 amended. The counter is seeded from the LAST stored invoice's
four-digit suffix plus one; hence whenever the last invoice's suffix is
maximal among the stored ones (the normal append-only regime) and no
overflow past 9999 occurs, the next generated number's suffix is strictly
greater than the suffix of every stored invoice. -/
theorem generateInvoiceNumber_fresh_when_last_is_max
    (pfx ym : String) (invs : List Invoice) (lastInv : Invoice) (m : Nat)
    (hlast : invs.getLast? = some lastInv)
    (hsuf : extractSuffix lastInv.number = some m)
    (hmax : ∀ inv ∈ invs, ∀ s, extractSuffix inv.number = some s → s ≤ m)
    (hbound : m + 1 ≤ 9999) :
    extractSuffix (generateInvoiceNumber pfx ym (seedCounter invs)) = some (m + 1) ∧
    ∀ inv ∈ invs, ∀ s, extractSuffix inv.number = some s → s < m + 1 := by
  have hseed : seedCounter invs = m + 1 := by
    simp [seedCounter, hlast, hsuf]
  constructor
  · rw [hseed]
    exact extractSuffix_generateInvoiceNumber pfx ym (m + 1) hbound
  · intro inv hinv s hs
    exact Nat.lt_succ_of_le (hmax inv hinv s hs)

/-- Witness for the amended C6 on an append-ordered ledger. -/
theorem generateInvoiceNumber_fresh_when_last_is_max_witness :
    extractSuffix (generateInvoiceNumber "FAC" "202510"
      (seedCounter [invTwo, invFive])) = some 6 ∧
    ∀ inv ∈ [invTwo, invFive], ∀ s, extractSuffix inv.number = some s → s < 6 :=
  generateInvoiceNumber_fresh_when_last_is_max "FAC" "202510" [invTwo, invFive]
    invFive 5 (by decide) (by decide)
    (by
      intro inv hinv s hs
      rcases List.mem_cons.mp hinv with h | h
      · subst h
        have h2 : extractSuffix invTwo.number = some 2 := by decide
        rw [h2] at hs
        have := Option.some.inj hs
        omega
      · rcases List.mem_cons.mp h with h1 | h1
        · subst h1
          have h5 : extractSuffix invFive.number = some 5 := by decide
          rw [h5] at hs
          have := Option.some.inj hs
          omega
        · simp at h1)
    (by omega)

/-! ## TariffConfig (config.module.js `ConfigAPI`) -/

/-- A manipulation/service entry `{name, icon}` of the configuration. -/
structure Service where
  name : String
  icon : String
  deriving DecidableEq, Repr

/-- The module state `configState` of config.module.js. Tariff records are
open JS objects (an `updateTarif` call can create a field for any client
type string), so they are association lists over `ℚ`. -/
structure ConfigState where
  microscopes : List String
  manipulations : List Service
  internalLaboratories : List String
  tarifsMicroscopes : List (String × List (String × ℚ))
  tarifsServices : List (String × List (String × ℚ))
  deriving DecidableEq, Repr

/-- The freshly created tariff record `{ interne: 0, externe: 0, prive: 0 }`. -/
def zeroEntry : List (String × ℚ) := [("interne", 0), ("externe", 0), ("prive", 0)]

/-- `parseFloat(value) || 0`: `none` stands for `NaN` (invalid numeric
input); `NaN`, `0` and `-0` are falsy and give 0, every other parsed float
— negative ones included — passes through unchanged. -/
def coerceTarifValue : Option ℚ → ℚ
  | none => 0
  | some q => if q = 0 then 0 else q

/-- `microscopes.updateTarif(name, clientType, value)` (config.module.js
lines 240-247): create a zero tariff record if none exists, then assign the
coerced value to the `clientType` field. -/
def microscopesUpdateTarif (cfg : ConfigState) (name ct : String)
    (value : Option ℚ) : ConfigState :=
  let t0 := cfg.tarifsMicroscopes
  let t1 := if (t0.lookup name).isSome then t0 else assocSet t0 name zeroEntry
  let entry := (t1.lookup name).getD zeroEntry
  { cfg with tarifsMicroscopes :=
      assocSet t1 name (assocSet entry ct (coerceTarifValue value)) }

/-- `services.updateTarif(name, clientType, value)` (config.module.js lines
301-308), identical logic on the services tariff table. -/
def servicesUpdateTarif (cfg : ConfigState) (name ct : String)
    (value : Option ℚ) : ConfigState :=
  let t0 := cfg.tarifsServices
  let t1 := if (t0.lookup name).isSome then t0 else assocSet t0 name zeroEntry
  let entry := (t1.lookup name).getD zeroEntry
  { cfg with tarifsServices :=
      assocSet t1 name (assocSet entry ct (coerceTarifValue value)) }

/-- `microscopes.remove(name)` (config.module.js lines 213-223): reject when
absent, otherwise splice the name out of the ordered list and delete the
tariff entry in the same call. -/
def microscopesRemove (cfg : ConfigState) (name : String) : Bool × ConfigState :=
  if name ∈ cfg.microscopes then
    (true, { cfg with
        microscopes := cfg.microscopes.erase name,
        tarifsMicroscopes := cfg.tarifsMicroscopes.filter (fun e => e.1 != name) })
  else (false, cfg)

/-- `services.remove(name)` (config.module.js lines 272-282): find by name,
splice the first match out of `manipulations` and delete the tariff entry. -/
def servicesRemove (cfg : ConfigState) (name : String) : Bool × ConfigState :=
  if cfg.manipulations.any (fun m => m.name == name) then
    (true, { cfg with
        manipulations := cfg.manipulations.eraseP (fun m => m.name == name),
        tarifsServices := cfg.tarifsServices.filter (fun e => e.1 != name) })
  else (false, cfg)

/-- C7 amended. `updateTarif` never throws, creates the zero record when
the name is new, and stores `parseFloat(value) || 0` under the requested
client-type field: `NaN` becomes 0, but a negative parsed value is stored
unchanged (there is no non-negativity clamp). Both categories behave
identically. -/
theorem updateTarif_coerces (cfg : ConfigState) (name ct : String)
    (value : Option ℚ) :
    (∃ e, (microscopesUpdateTarif cfg name ct value).tarifsMicroscopes.lookup name
        = some e ∧ e.lookup ct = some (coerceTarifValue value)) ∧
    (value = none → coerceTarifValue value = 0) ∧
    (cfg.tarifsMicroscopes.lookup name = none →
      (microscopesUpdateTarif cfg name ct value).tarifsMicroscopes.lookup name =
        some (assocSet zeroEntry ct (coerceTarifValue value))) ∧
    (∃ e, (servicesUpdateTarif cfg name ct value).tarifsServices.lookup name
        = some e ∧ e.lookup ct = some (coerceTarifValue value)) := by
  refine ⟨?_, ?_, ?_, ?_⟩
  · exact ⟨_, assocSet_lookup_self _ _ _, assocSet_lookup_self _ _ _⟩
  · intro h; subst h; rfl
  · intro hnone
    simp only [microscopesUpdateTarif, hnone, Option.isSome_none, Bool.false_eq_true,
      if_false, assocSet_lookup_self, Option.getD_some]
  · exact ⟨_, assocSet_lookup_self _ _ _, assocSet_lookup_self _ _ _⟩

/-- An empty configuration. -/
def cfgEmpty : ConfigState := ⟨[], [], [], [], []⟩

/-- C7 counterexample to the claim as stated: `updateTarif` with parsed
value -5 stores -5 — the stored tariff CAN be negative, because
`parseFloat(value) || 0` only replaces falsy results (`NaN`, `0`, `-0`),
never clamps. -/
theorem updateTarif_negative_stored :
    ((microscopesUpdateTarif cfgEmpty "M" "interne" (some (-5))).tarifsMicroscopes.lookup
      "M").bind (fun e => e.lookup "interne") = some (-5) ∧ (-5 : ℚ) < 0 := by
  constructor
  · have h5 : coerceTarifValue (some (-5)) = -5 := by
      simp [coerceTarifValue]
    simp [microscopesUpdateTarif, cfgEmpty, h5, assocSet, List.lookup, zeroEntry]
  · norm_num

/-- Witness for the amended C7 at a fresh name with invalid input. -/
theorem updateTarif_coerces_witness :
    (∃ e, (microscopesUpdateTarif cfgEmpty "M" "interne" none).tarifsMicroscopes.lookup
        "M" = some e ∧ e.lookup "interne" = some (coerceTarifValue none)) ∧
    coerceTarifValue none = 0 ∧
    (microscopesUpdateTarif cfgEmpty "M" "interne" none).tarifsMicroscopes.lookup "M" =
      some (assocSet zeroEntry "interne" (coerceTarifValue none)) :=
  ⟨(updateTarif_coerces cfgEmpty "M" "interne" none).1,
   (updateTarif_coerces cfgEmpty "M" "interne" none).2.1 rfl,
   (updateTarif_coerces cfgEmpty "M" "interne" none).2.2.1 rfl⟩

/-- No tariff entry may exist for a name absent from the microscopes list. -/
def microNoDangling (cfg : ConfigState) : Prop :=
  ∀ k ∈ cfg.tarifsMicroscopes.map Prod.fst, k ∈ cfg.microscopes

/-- No tariff entry may exist for a name absent from the services list. -/
def serviceNoDangling (cfg : ConfigState) : Prop :=
  ∀ k ∈ cfg.tarifsServices.map Prod.fst, k ∈ cfg.manipulations.map Service.name

theorem lookup_filter_ne {β : Type} (l : List (String × β)) (k : String) :
    (l.filter (fun e => e.1 != k)).lookup k = none := by
  induction l with
  | nil => rfl
  | cons hd tl ih =>
      obtain ⟨k', v'⟩ := hd
      by_cases h : k' = k
      · subst h; simpa [List.filter] using ih
      · have hne : (k' != k) = true := by simp [h]
        have hne2 : (k == k') = false := by simp [Ne.symm h]
        simp [List.filter, hne, List.lookup, hne2, ih]

theorem mem_keys_filter_ne {β : Type} (l : List (String × β)) (name k : String)
    (hk : k ∈ (l.filter (fun e => e.1 != name)).map Prod.fst) :
    k ≠ name ∧ k ∈ l.map Prod.fst := by
  obtain ⟨e, he, hek⟩ := List.mem_map.mp hk
  have hmem := List.mem_of_mem_filter he
  have hprop := List.of_mem_filter he
  refine ⟨?_, List.mem_map.mpr ⟨e, hmem, hek⟩⟩
  subst hek
  simpa using hprop

theorem mem_eraseP_of_not {α : Type} (p : α → Bool) (l : List α) (a : α)
    (ha : a ∈ l) (hp : p a = false) : a ∈ l.eraseP p := by
  induction l with
  | nil => simp at ha
  | cons hd tl ih =>
      rw [List.eraseP_cons]
      rcases List.mem_cons.mp ha with h | h
      · subst h
        simp [hp]
      · cases hph : p hd
        · simpa using Or.inr (ih h)
        · simpa using h

theorem name_not_mem_map_eraseP (l : List Service) (name : String)
    (hnd : (l.map Service.name).Nodup) :
    name ∉ (l.eraseP (fun m => m.name == name)).map Service.name := by
  induction l with
  | nil => simp
  | cons m tl ih =>
      rw [List.map_cons, List.nodup_cons] at hnd
      rw [List.eraseP_cons]
      cases hm : (m.name == name)
      · simp only [cond_false, List.map_cons]
        intro hmem
        rcases List.mem_cons.mp hmem with h | h
        · rw [beq_eq_false_iff_ne] at hm
          exact hm h.symm
        · exact ih hnd.2 h
      · simp only [cond_true]
        rw [beq_iff_eq] at hm
        rw [← hm]
        exact hnd.1

/-- C9. `removeItem` of either category is atomic: on an absent name it
returns `false` and changes nothing; on a present name it returns `true`,
removes the name from the ordered list, and its tariff entry is gone; and
it preserves the no-dangling-tariff invariant. -/
theorem removeItem_atomic (cfg : ConfigState) (name : String) :
    (name ∉ cfg.microscopes → microscopesRemove cfg name = (false, cfg)) ∧
    (name ∈ cfg.microscopes →
      (microscopesRemove cfg name).1 = true ∧
      (microscopesRemove cfg name).2.tarifsMicroscopes.lookup name = none ∧
      (cfg.microscopes.Nodup → name ∉ (microscopesRemove cfg name).2.microscopes)) ∧
    (microNoDangling cfg → microNoDangling (microscopesRemove cfg name).2) ∧
    ((¬ ∃ m ∈ cfg.manipulations, m.name = name) → servicesRemove cfg name = (false, cfg)) ∧
    ((∃ m ∈ cfg.manipulations, m.name = name) →
      (servicesRemove cfg name).1 = true ∧
      (servicesRemove cfg name).2.tarifsServices.lookup name = none ∧
      ((cfg.manipulations.map Service.name).Nodup →
        name ∉ (servicesRemove cfg name).2.manipulations.map Service.name)) ∧
    (serviceNoDangling cfg → serviceNoDangling (servicesRemove cfg name).2) := by
  have hany : cfg.manipulations.any (fun m => m.name == name) = true ↔
      ∃ m ∈ cfg.manipulations, m.name = name := by
    simp [List.any_eq_true]
  refine ⟨?_, ?_, ?_, ?_, ?_, ?_⟩
  · intro h; simp [microscopesRemove, h]
  · intro h
    refine ⟨by simp [microscopesRemove, h], ?_, ?_⟩
    · simp [microscopesRemove, h, lookup_filter_ne]
    · intro hnd
      simp only [microscopesRemove, if_pos h]
      exact hnd.not_mem_erase
  · intro hinv
    by_cases h : name ∈ cfg.microscopes
    · simp only [microscopesRemove, if_pos h]
      intro k hk
      obtain ⟨hkne, hkmem⟩ := mem_keys_filter_ne _ _ _ hk
      exact (List.mem_erase_of_ne hkne).mpr (hinv k hkmem)
    · simpa [microscopesRemove, if_neg h] using hinv
  · intro h
    have hf : cfg.manipulations.any (fun m => m.name == name) = false :=
      Bool.eq_false_iff.mpr (fun hh => h (hany.mp hh))
    simp [servicesRemove, hf]
  · intro h
    have ht : cfg.manipulations.any (fun m => m.name == name) = true :=
      hany.mpr h
    refine ⟨by simp [servicesRemove, ht], ?_, ?_⟩
    · simp [servicesRemove, ht, lookup_filter_ne]
    · intro hnd
      simp only [servicesRemove, ht, if_true]
      exact name_not_mem_map_eraseP _ _ hnd
  · intro hinv
    by_cases h : cfg.manipulations.any (fun m => m.name == name) = true
    · simp only [servicesRemove, h, if_true]
      intro k hk
      obtain ⟨hkne, hkmem⟩ := mem_keys_filter_ne _ _ _ hk
      obtain ⟨m, hm, hmk⟩ := List.mem_map.mp (hinv k hkmem)
      refine List.mem_map.mpr ⟨m, ?_, hmk⟩
      refine mem_eraseP_of_not _ _ _ hm ?_
      rw [beq_eq_false_iff_ne, hmk]
      exact hkne
    · have hf : cfg.manipulations.any (fun m => m.name == name) = false := by
        simpa using h
      simpa [servicesRemove, hf] using hinv

/-- The built-in `DEFAULT_CONFIG` of config.module.js. -/
def cfgDefault : ConfigState :=
  { microscopes := ["Tecnai 200 KV", "Confocal Olympus FV1000"],
    manipulations := [⟨"Negative staining", "💧"⟩, ⟨"Préparation classique", "🧪"⟩],
    internalLaboratories := ["BIP", "LCB", "IGS", "LISM"],
    tarifsMicroscopes :=
      [("Tecnai 200 KV", [("interne", 60), ("externe", 120), ("prive", 180)]),
       ("Confocal Olympus FV1000", [("interne", 45), ("externe", 90), ("prive", 135)])],
    tarifsServices :=
      [("Negative staining", [("interne", 30), ("externe", 60), ("prive", 90)]),
       ("Préparation classique", [("interne", 50), ("externe", 100), ("prive", 150)])] }

/-- Witness for C9: the spec's own scenario — removing `'Tecnai 200 KV'`
from the default configuration leaves no dangling tariff entry; removing an
unknown service is a no-op returning `false`. -/
theorem removeItem_atomic_witness :
    (microscopesRemove cfgDefault "Tecnai 200 KV").1 = true ∧
    (microscopesRemove cfgDefault "Tecnai 200 KV").2.tarifsMicroscopes.lookup
      "Tecnai 200 KV" = none ∧
    "Tecnai 200 KV" ∉ (microscopesRemove cfgDefault "Tecnai 200 KV").2.microscopes ∧
    microNoDangling (microscopesRemove cfgDefault "Tecnai 200 KV").2 ∧
    servicesRemove cfgDefault "Cryofixation" = (false, cfgDefault) := by
  have h := removeItem_atomic cfgDefault "Tecnai 200 KV"
  have hmem : "Tecnai 200 KV" ∈ cfgDefault.microscopes := by decide
  exact ⟨(h.2.1 hmem).1, (h.2.1 hmem).2.1, (h.2.1 hmem).2.2 (by decide),
    h.2.2.1 (by unfold microNoDangling; decide),
    (removeItem_atomic cfgDefault "Cryofixation").2.2.2.1 (by decide)⟩

/-! ## TeamRegistry (teams.module.js `TeamsAPI`) -/

/-- JS `String.prototype.trim`: strip whitespace from both ends. -/
def jsTrim (s : String) : String :=
  String.mk (((s.data.dropWhile Char.isWhitespace).reverse.dropWhile
    Char.isWhitespace).reverse)

/-- JS `String.prototype.toLowerCase` on the alphabets involved. -/
def jsToLower (s : String) : String := String.mk (s.data.map Char.toLower)

/-- `validateTeam(teamData)` (teams.module.js lines 92-120): aggregate the
error messages; a team is valid iff the list is empty. An absent
`laboratory` (`undefined`) is falsy like the empty string. -/
def validateTeam (t : Team) : List String :=
  (if t.name = "" ∨ (jsTrim t.name).length < 2 then
    ["Le nom de l equipe est requis (min. 2 caracteres)"] else []) ++
  (if t.clientType ∈ (["interne", "externe", "prive"] : List String) then []
   else ["Type de client invalide"]) ++
  (match t.laboratory with
   | none => ["Le laboratoire est requis"]
   | some lab =>
       if lab = "" ∨ (jsTrim lab).length < 2 then ["Le laboratoire est requis"]
       else []) ++
  (if t.microscopeSessions.any (fun s => s < 0) then
    ["Les sessions ne peuvent pas etre negatives"] else [])

/-- `TeamsAPI.update(teamName, teamData)` (teams.module.js lines 436-467):
locate the team by exact name, validate, reject a rename whose lowercased
target collides with ANY stored team (the team being renamed is not
excluded — only an exact-name match skips the scan), else replace the
record at the found index. -/
def teamsUpdate (teams : List Team) (teamName : String) (td : Team) :
    Bool × List Team :=
  match teams.findIdx? (fun t => t.name == teamName) with
  | none => (false, teams)
  | some idx =>
      if (validateTeam td).isEmpty then
        if td.name != teamName &&
            teams.any (fun t => jsToLower t.name == jsToLower td.name) then
          (false, teams)
        else (true, teams.set idx td)
      else (false, teams)

/-- C8 amended. When `oldName` names a stored team, `update` succeeds —
fully replacing the record at that index — exactly when the new data is
valid and either keeps the name unchanged (case-sensitively) or collides
case-insensitively with NO stored team at all; in every other case it
returns `false` and leaves the collection unchanged. In particular a
case-only rename of the team itself is rejected, because the
case-insensitive duplicate scan does not exclude the team being updated. -/
theorem teamsUpdate_spec (teams : List Team) (teamName : String) (td : Team)
    (idx : Nat) (hidx : teams.findIdx? (fun t => t.name == teamName) = some idx) :
    teamsUpdate teams teamName td =
      if (validateTeam td).isEmpty ∧ (td.name = teamName ∨
          ∀ t ∈ teams, jsToLower t.name ≠ jsToLower td.name)
      then (true, teams.set idx td) else (false, teams) := by
  unfold teamsUpdate
  rw [hidx]
  by_cases hv : (validateTeam td).isEmpty
  · simp only [hv, if_true, true_and]
    by_cases hd : td.name = teamName ∨ ∀ t ∈ teams, jsToLower t.name ≠ jsToLower td.name
    · rw [if_pos hd]
      have hc : (td.name != teamName &&
          teams.any (fun t => jsToLower t.name == jsToLower td.name)) = false := by
        rcases hd with h | h
        · simp [h]
        · simp only [Bool.and_eq_false_iff]
          right
          simp only [List.any_eq_false]
          intro t ht
          simp [h t ht]
      rw [hc]
      simp
    · rw [if_neg hd]
      push_neg at hd
      obtain ⟨hne, t, ht, hlow⟩ := hd
      have hc : (td.name != teamName &&
          teams.any (fun t => jsToLower t.name == jsToLower td.name)) = true := by
        simp only [Bool.and_eq_true, bne_iff_ne]
        exact ⟨hne, List.any_eq_true.mpr ⟨t, ht, by simp [hlow]⟩⟩
      rw [hc]
      simp
  · simp [hv]

/-- A stored team and a case-only renaming of it. -/
def alphaTeam : Team :=
  { name := "Alpha", laboratory := some "BIP", clientType := "interne",
    microscopeSessions := [], manipulations := [] }

def alphaUpper : Team :=
  { name := "ALPHA", laboratory := some "BIP", clientType := "interne",
    microscopeSessions := [], manipulations := [] }

/-- C8 counterexample to the claim as stated: `alphaUpper` is valid and its
name collides with no team other than the one being updated (it is the only
team), yet `update("Alpha", alphaUpper)` returns `false` and leaves the
collection unchanged — the case-only rename is rejected. -/
theorem teamsUpdate_case_rename_rejected :
    validateTeam alphaUpper = [] ∧
    (∀ t ∈ [alphaTeam], t.name ≠ "Alpha" →
      jsToLower t.name ≠ jsToLower alphaUpper.name) ∧
    teamsUpdate [alphaTeam] "Alpha" alphaUpper = (false, [alphaTeam]) := by
  refine ⟨by decide, ?_, by decide⟩
  intro t ht hname
  rw [List.mem_singleton] at ht
  subst ht
  exact absurd rfl hname

/-- A valid rename target colliding with nothing. -/
def betaTeam : Team :=
  { name := "Beta", laboratory := some "LCB", clientType := "externe",
    microscopeSessions := [1], manipulations := [] }

/-- Witness for the amended C8: a collision-free valid rename succeeds and
fully replaces the stored record. -/
theorem teamsUpdate_spec_witness :
    teamsUpdate [alphaTeam] "Alpha" betaTeam = (true, [betaTeam]) := by
  rw [teamsUpdate_spec [alphaTeam] "Alpha" betaTeam 0 (by decide)]
  rw [if_pos]
  · rfl
  · refine ⟨by decide, Or.inr ?_⟩
    intro t ht
    rw [List.mem_singleton] at ht
    subst ht
    decide
